import Mathlib

/-!
Verification development for the ARIA conversational-assistant backend.

The definitions below are shallow embeddings of the Python source under
`backend/app` (main.py, services/llm_service.py, services/speech_service.py,
services/personality_service.py).  Python strings are modelled as `String`
(lists of characters), machine randomness and wall-clock inputs are passed
in explicitly as parameters, and external effects (the Ollama HTTP call,
the TTS/ASR subprocesses, the filesystem) are modelled by explicit outcome
values fed to the embedded functions.
-/

namespace Aria

/-! ## Python string primitives -/

/-- Characters the Python `str.strip` / regex `\s` class treats as whitespace
(ASCII range, which is all the repository ever produces). -/
def pySpace (c : Char) : Bool :=
  c = ' ' || c = '\t' || c = '\n' || c = '\r' || c = '\x0b' || c = '\x0c'

/-- Python `str.strip()` on a character list. -/
def stripL (l : List Char) : List Char :=
  ((l.dropWhile pySpace).reverse.dropWhile pySpace).reverse

/-- Python `str.strip()`. -/
def pyStrip (s : String) : String := String.mk (stripL s.data)

/-- Python `str.lower()` (ASCII). -/
def pyLower (s : String) : String := String.mk (s.data.map Char.toLower)

/-- Python substring test `needle in haystack` on character lists. -/
def containsSub (needle : List Char) (haystack : List Char) : Bool :=
  match haystack with
  | [] => needle.isEmpty
  | _ :: cs => needle.isPrefixOf haystack || containsSub needle cs

/-- Python `needle in haystack` on strings. -/
def inStr (needle haystack : String) : Bool :=
  containsSub needle.data haystack.data

theorem containsSub_iff_infix {n h : List Char} :
    containsSub n h = true ↔ n <:+: h := by
  induction h with
  | nil =>
    simp only [containsSub, List.isEmpty_iff, List.infix_nil]
  | cons c cs ih =>
    simp only [containsSub, Bool.or_eq_true, List.isPrefixOf_iff_prefix, ih,
      List.infix_cons_iff]

/-! ## Context Manager (main.py, `conversation_history` and its operations) -/

/-- One recorded user/assistant exchange (`{"user": ..., "assistant": ...,
"timestamp": ...}` in the source). -/
structure Exchange where
  user : String
  assistant : String
  timestamp : String
deriving DecidableEq, Repr

/-- `MAX_HISTORY` in main.py (and `max_history` in llm_service.py). -/
def MAX_HISTORY : Nat := 10

/-- main.py `update_conversation_history`: append the new exchange, then trim
to the last `MAX_HISTORY` entries (`conversation_history[-MAX_HISTORY:]`). -/
def updateConversationHistory (hist : List Exchange)
    (userInput assistantResponse ts : String) : List Exchange :=
  let h := hist ++ [⟨userInput, assistantResponse, ts⟩]
  if h.length > MAX_HISTORY then h.drop (h.length - MAX_HISTORY) else h

/-- A whole sequence of `update_conversation_history` calls. -/
def recordAll (hist : List Exchange) (es : List Exchange) : List Exchange :=
  es.foldl (fun h e => updateConversationHistory h e.user e.assistant e.timestamp) hist

/-- Python `l[-MAX_HISTORY:]`. -/
def lastH (l : List Exchange) : List Exchange := l.drop (l.length - MAX_HISTORY)

/-- One role-tagged message of the prompt context. -/
structure Message where
  role : String
  content : String
deriving DecidableEq, Repr

/-- main.py `get_system_prompt` (same text as llm_service.py `_get_system_prompt`). -/
def getSystemPrompt : String :=
  "You are ARIA, a sophisticated AI assistant with wit and personality. You should be:\n\n- Helpful and knowledgeable, providing accurate and useful information\n- Witty and engaging, with a touch of British humor when appropriate\n- Professional yet personable, like a capable butler or assistant\n- Concise but thorough - don\x27t ramble, but provide complete answers\n- Slightly sarcastic occasionally, but never rude or dismissive\n- Always respectful and supportive of the user\n\nYou have access to various capabilities that will be added over time:\n- Calendar management (coming soon)\n- Document analysis (coming soon)  \n- Web search (coming soon)\n- Task management (coming soon)\n\nFor now, focus on being a helpful conversational assistant. If asked about capabilities you don\x27t have yet, acknowledge it with wit but offer to help in other ways.\n\nKeep responses conversational and engaging. Avoid overly formal language unless the situation calls for it."

/-- Expansion of one stored exchange into a user message followed by the
assistant message, as in the loop body of `build_conversation_context`. -/
def expandExchange (e : Exchange) : List Message :=
  [⟨"user", e.user⟩, ⟨"assistant", e.assistant⟩]

/-- main.py `build_conversation_context` (same logic as llm_service.py
`_build_conversation_context`): system prompt, then the last `MAX_HISTORY`
stored exchanges expanded in order, then the current prompt. -/
def buildConversationContext (currentPrompt : String) (hist : List Exchange) :
    List Message :=
  ⟨"system", getSystemPrompt⟩ ::
    ((lastH hist).flatMap expandExchange ++ [⟨"user", currentPrompt⟩])

/-- Recording one `Exchange` value (same function as
`updateConversationHistory`, bundled argument form used in the proofs). -/
def record (hist : List Exchange) (e : Exchange) : List Exchange :=
  updateConversationHistory hist e.user e.assistant e.timestamp

theorem recordAll_eq_foldl_record (hist : List Exchange) (es : List Exchange) :
    recordAll hist es = es.foldl record hist := rfl

/-! ### History lemmas -/

theorem record_eq (hist : List Exchange) (e : Exchange) :
    record hist e = if (hist ++ [e]).length > MAX_HISTORY then
      (hist ++ [e]).drop ((hist ++ [e]).length - MAX_HISTORY) else hist ++ [e] := rfl

theorem record_eq_lastH (hist : List Exchange) (e : Exchange) :
    record hist e = lastH (hist ++ [e]) := by
  rw [record_eq]
  unfold lastH
  by_cases h : (hist ++ [e]).length > MAX_HISTORY
  · rw [if_pos h]
  · rw [if_neg h]
    have h0 : (hist ++ [e]).length - MAX_HISTORY = 0 := by omega
    rw [h0, List.drop_zero]

theorem lastH_length_le (l : List Exchange) : (lastH l).length ≤ MAX_HISTORY := by
  unfold lastH
  simp only [List.length_drop]
  omega

/-- Dropping to the last `MAX_HISTORY` before appending more does not change
the final last-`MAX_HISTORY` window, provided the first part is at most one
over capacity (which is the only way the code ever calls it). -/
theorem lastH_lastH_append (a b : List Exchange) (ha : a.length ≤ MAX_HISTORY + 1) :
    lastH (lastH a ++ b) = lastH (a ++ b) := by
  by_cases hlen : a.length ≤ MAX_HISTORY
  · have : lastH a = a := by
      unfold lastH
      have : a.length - MAX_HISTORY = 0 := by omega
      simp [this]
    rw [this]
  · -- a.length = MAX_HISTORY + 1, so lastH a = a.drop 1
    have hlen' : a.length = MAX_HISTORY + 1 := by omega
    match a, hlen' with
    | x :: a', hlen' =>
      have hx : lastH (x :: a') = a' := by
        unfold lastH
        simp only [List.length_cons]
        have : a'.length + 1 - MAX_HISTORY = 1 := by
          simp only [List.length_cons] at hlen'; omega
        simp [this]
      rw [hx]
      unfold lastH
      have h1 : (a' ++ b).length - MAX_HISTORY = (a' ++ b).length - MAX_HISTORY := rfl
      have hlena' : a'.length = MAX_HISTORY := by
        simp only [List.length_cons] at hlen'; omega
      have h2 : ((x :: a') ++ b).length - MAX_HISTORY
          = ((a' ++ b).length - MAX_HISTORY) + 1 := by
        simp only [List.length_append, List.length_cons]
        omega
      show (a' ++ b).drop ((a' ++ b).length - MAX_HISTORY)
          = ((x :: a') ++ b).drop (((x :: a') ++ b).length - MAX_HISTORY)
      rw [h2]
      rfl

theorem recordAll_eq_lastH_append (es : List Exchange) :
    ∀ hist : List Exchange, hist.length ≤ MAX_HISTORY →
    recordAll hist es = lastH (hist ++ es) := by
  induction es with
  | nil =>
    intro hist hle
    show hist = lastH (hist ++ [])
    unfold lastH
    have h0 : (hist ++ []).length - MAX_HISTORY = 0 := by
      simp only [List.append_nil]; omega
    rw [h0, List.drop_zero, List.append_nil]
  | cons e es ih =>
    intro hist hle
    show recordAll (record hist e) es = lastH (hist ++ e :: es)
    have hrec : record hist e = lastH (hist ++ [e]) := record_eq_lastH hist e
    have hlen : (record hist e).length ≤ MAX_HISTORY := by
      rw [hrec]; exact lastH_length_le _
    rw [ih _ hlen, hrec, lastH_lastH_append]
    · congr 1
      simp
    · simp only [List.length_append, List.length_cons, List.length_nil]
      omega

theorem recordAll_length_le (hist : List Exchange) (es : List Exchange)
    (hle : hist.length ≤ MAX_HISTORY) :
    (recordAll hist es).length ≤ MAX_HISTORY := by
  rw [recordAll_eq_lastH_append es hist hle]
  exact lastH_length_le _

/-! ## Persona Filter (main.py personality functions; the same code appears
as methods of `PersonalityService` in personality_service.py) -/

/-- The fixed pool drawn from by `get_error_messages` / `random.choice`. -/
def errorMessages : List String :=
  ["I apologize, but I seem to have encountered a slight technical difficulty. Shall we try that again?",
   "My circuits are feeling a bit scrambled at the moment. Could you repeat your request?",
   "I\x27m afraid something went awry on my end. Perhaps we could approach this differently?",
   "It appears I\x27ve hit a minor snag. Let me gather my wits and we\x27ll try once more.",
   "Technical difficulties, I\x27m afraid. Even AI assistants have their off moments!"]

/-- `flourishes[\x27start\x27]` in `add_personality_flourishes`. -/
def startFlourishes : List String :=
  ["I must say, ", "Indeed, ", "Quite right, ", "Certainly, ", "Absolutely, "]

/-- `flourishes[\x27end\x27]` in `add_personality_flourishes`. -/
def endFlourishes : List String :=
  [" I do hope that helps!", " Anything else you\x27d like to know?",
   " Will that suffice?", " I trust that\x27s useful?", " Does that answer your question?"]

/-- The greeting-word tuple tested by
`response.lower().startswith((\x27hello\x27, \x27hi\x27, \x27good\x27, \x27greetings\x27))`. -/
def greetingWords : List String := ["hello", "hi", "good", "greetings"]

/-- Python `s[0].upper() + s[1:]` (total version; every call site has a
non-empty argument). -/
def upperFirst (s : String) : String :=
  match s.data with
  | [] => s
  | c :: cs => String.mk (c.toUpper :: cs)

/-- Outcomes of the pseudo-random draws inside `add_personality_flourishes`:
`enh` is the outer `random.random() <= 0.3` enhancement gate (the code
returns the text unchanged when the draw exceeds 0.3), `startRoll` the
`random.random() < 0.4` draw, `endRoll` the `random.random() < 0.3` draw,
and the two indices are the `random.choice` picks. -/
structure FlourishRolls where
  enh : Bool
  startRoll : Bool
  startIdx : Fin 5
  endRoll : Bool
  endIdx : Fin 5
deriving DecidableEq, Repr

/-- `response.lower().startswith((\x27hello\x27, \x27hi\x27, \x27good\x27, \x27greetings\x27))`. -/
def startsWithGreeting (s : String) : Bool :=
  greetingWords.any (fun g => g.data.isPrefixOf (pyLower s).data)

/-- main.py `add_personality_flourishes` (lines 139-172): with the outer gate
taken, optionally prepend a start flourish to the **fully lower-cased**
response and re-capitalize the first character of the result, then
optionally append an end flourish. -/
def addPersonalityFlourishes (response : String) (r : FlourishRolls) : String :=
  if r.enh = false then response
  else
    let enhanced :=
      if r.startRoll = true ∧ startsWithGreeting response = false then
        upperFirst (startFlourishes.get (r.startIdx.cast rfl) ++ pyLower response)
      else response
    if r.endRoll = true ∧ response.endsWith "?" = false ∧ 50 < response.length then
      enhanced ++ endFlourishes.get (r.endIdx.cast rfl)
    else enhanced

/-! ### clean_formatting (main.py lines 174-191) -/

/-- The sentence-ending tuple of `text.endswith((\x27.\x27, \x27!\x27, \x27?\x27, \x27:\x27))`. -/
def sentenceEndPunct (c : Char) : Bool := c = '.' || c = '!' || c = '?' || c = ':'

/-- The character class `[.!?]` of the two fix-up regexes. -/
def punct3 (c : Char) : Bool := c = '.' || c = '!' || c = '?'

/-- The character class `[a-z]`. -/
def isLowerAlpha (c : Char) : Bool := 'a' ≤ c && c ≤ 'z'

/-- Python `text[0].upper() + text[1:] if len(text) > 1 else text.upper()`. -/
def capFirst (s : String) : String :=
  if s.length > 1 then upperFirst s else String.mk (s.data.map Char.toUpper)

/-- Python `if not text.endswith((\x27.\x27, \x27!\x27, \x27?\x27, \x27:\x27)): text += \x27.\x27`. -/
def ensureEnding (s : String) : String :=
  match s.data.getLast? with
  | some c => if sentenceEndPunct c then s else s ++ "."
  | none => s ++ "."

/-- `re.sub(r\x27\s+\x27, \x27 \x27, text)`: collapse each maximal whitespace run to
a single space. -/
def collapseWsL : List Char → List Char
  | [] => []
  | [c] => if pySpace c then [' '] else [c]
  | c :: d :: cs =>
    if pySpace c then
      if pySpace d then collapseWsL (d :: cs)
      else ' ' :: collapseWsL (d :: cs)
    else c :: collapseWsL (d :: cs)

/-- First non-whitespace character of a list, if any. -/
def nextNonWs : List Char → Option Char
  | [] => none
  | c :: cs => if pySpace c then nextNonWs cs else some c

/-- `re.sub(r\x27\s+([.!?])\x27, r\x27\1\x27, text)`: delete every whitespace
character whose following non-whitespace character is `.`, `!` or `?`
(i.e. delete whitespace runs immediately preceding such punctuation). -/
def nextNonWsPunct (cs : List Char) : Bool :=
  match nextNonWs cs with
  | some p => punct3 p
  | none => false

def rmWsBeforePunctL : List Char → List Char
  | [] => []
  | c :: cs =>
    if pySpace c && nextNonWsPunct cs then rmWsBeforePunctL cs
    else c :: rmWsBeforePunctL cs

/-- Fuel-indexed scanner for `re.sub(r\x27([.!?])\s*([a-z])\x27, r\x27\1 \2\x27, text)`:
after `.`, `!` or `?`, if the next non-whitespace character is a lowercase
letter, the intervening whitespace is replaced by exactly one space and
scanning resumes after that letter.  The fuel is the list length, which is
always sufficient (each step consumes at least one character). -/
def fixSpaceAfterAux : Nat → List Char → List Char
  | 0, l => l
  | _ + 1, [] => []
  | fuel + 1, c :: cs =>
    if punct3 c then
      match cs.dropWhile pySpace with
      | a :: rs =>
        if isLowerAlpha a then c :: ' ' :: a :: fixSpaceAfterAux fuel rs
        else c :: fixSpaceAfterAux fuel cs
      | [] => c :: fixSpaceAfterAux fuel cs
    else c :: fixSpaceAfterAux fuel cs

/-- `re.sub(r\x27([.!?])\s*([a-z])\x27, r\x27\1 \2\x27, text)`. -/
def fixSpaceAfterPunctL (l : List Char) : List Char := fixSpaceAfterAux l.length l

/-- main.py `clean_formatting`: capitalize, ensure a sentence ending, collapse
whitespace, remove whitespace before `.!?`, normalize the space after `.!?`
when a lowercase letter follows, and strip. -/
def cleanFormatting (text : String) : String :=
  if text.data.isEmpty then text
  else
    pyStrip (String.mk (fixSpaceAfterPunctL (rmWsBeforePunctL (collapseWsL
      (ensureEnding (capFirst text)).data))))

/-- main.py `filter_response`: empty or whitespace-only model output is
replaced by a pseudo-randomly chosen persona error message; otherwise the
stripped output is flourished and then format-cleaned. -/
def filterResponse (aiResponse : String) (r : FlourishRolls) (errIdx : Fin 5) : String :=
  if aiResponse.data.isEmpty ∨ (pyStrip aiResponse).data.isEmpty then
    errorMessages.get (errIdx.cast rfl)
  else
    cleanFormatting (addPersonalityFlourishes (pyStrip aiResponse) r)

/-! ## Capability handling (main.py `handle_capability_query`, lines 193-211) -/

def speechWords : List String := ["speak", "voice", "audio", "speech"]
def calendarWords : List String := ["calendar", "schedule", "appointment"]
def searchWords : List String := ["search", "google", "web", "internet"]
def documentWords : List String := ["document", "pdf", "file", "analyze"]

def speechCapabilityReply : String :=
  "I\x27m afraid I haven\x27t quite mastered the art of speech yet - that\x27s coming in Phase 2! For now, I\x27m quite content with our text-based conversations."
def calendarCapabilityReply : String :=
  "Calendar integration is on my to-do list for Phase 3. Until then, I\x27m happy to help you think through scheduling matters the old-fashioned way!"
def searchCapabilityReply : String :=
  "Web search capabilities are planned for Phase 5. For now, I\x27ll have to rely on my existing knowledge base - though I like to think it\x27s rather comprehensive!"
def documentCapabilityReply : String :=
  "Document analysis is scheduled for Phase 4. Currently, I can\x27t peek at your files, but I\x27m happy to discuss their contents if you\x27d like to share excerpts!"
def defaultCapabilityReply : String :=
  "Currently, I\x27m equipped with basic conversation and personality features. Coming soon: speech, calendar, document analysis, and web search. I\x27m growing more capable by the day!"

/-- main.py `handle_capability_query`: keyword classification against the four
topic word sets in priority order, with a generic summary as the fallback. -/
def handleCapabilityQuery (query : String) : String :=
  let q := pyLower query
  if speechWords.any (fun w => inStr w q) then speechCapabilityReply
  else if calendarWords.any (fun w => inStr w q) then calendarCapabilityReply
  else if searchWords.any (fun w => inStr w q) then searchCapabilityReply
  else if documentWords.any (fun w => inStr w q) then documentCapabilityReply
  else defaultCapabilityReply

/-! ## Chat endpoint (main.py `chat_with_ollama`, lines 306-375)

The HTTP call to Ollama is replaced by an explicit `LLMOutcome` input: either
the extracted message content of a 200 response, or the exception the `httpx`
call raised (timeout, connection failure, or any other exception rendered to
its string form; the non-200 branch raises an `HTTPException` that is caught
by the same generic handler, so it also surfaces as `otherExc`). -/

def capabilityKeywords : List String :=
  ["what can you do", "capabilities", "features", "help", "speak", "voice",
   "calendar", "search", "document"]

/-- The keyword gate plus the `capability_response != chat_message.message`
check guarding the early return of the scripted capability response. -/
def capabilityGate (msg : String) : Bool :=
  capabilityKeywords.any (fun k => inStr k (pyLower msg)) &&
    handleCapabilityQuery msg != msg

/-- main.py `enhance_prompt`: prepend the generated time-context line when a
time keyword occurs in the lowered input.  The formatted wall-clock string is
an input (it comes from `datetime.now()`). -/
def timeKeywords : List String :=
  ["today", "now", "current", "time", "date", "schedule", "calendar"]

def enhancePrompt (userInput : String) (timeContext : String) : String :=
  if timeKeywords.any (fun k => inStr k (pyLower userInput)) then
    "Current time context: " ++ timeContext ++ "\n\nUser query: " ++ userInput
  else userInput

inductive LLMOutcome
  | success (raw : String)
  | timeout
  | connectError
  | otherExc (detail : String)
deriving DecidableEq, Repr

structure HTTPError where
  statusCode : Nat
  detail : String
deriving DecidableEq, Repr

structure ChatReply where
  response : String
  status : String
deriving DecidableEq, Repr

structure TurnResult where
  outcome : Except HTTPError ChatReply
  history : List Exchange
  llmContacted : Bool
deriving Repr

/-- Suffix appended to the persona error message in the
`except httpx.TimeoutException` branch. -/
def timeoutSuffix : String :=
  " (Request timed out - make sure Ollama is running with \x27ollama serve\x27)"

/-- Suffix appended in the `except httpx.ConnectError` branch. -/
def connectSuffix : String :=
  " (Cannot connect to Ollama - make sure it\x27s running with \x27ollama serve\x27)"

/-- main.py `chat_with_ollama`.  Inputs beyond the request message: the
outcome of the Ollama call, the pseudo-random draws used by the persona
filter and the error-message choice, the formatted wall-clock strings, and
the current global `conversation_history`. -/
def chatWithOllama (msg : String) (llm : LLMOutcome) (r : FlourishRolls)
    (errIdx : Fin 5) (timeContext ts : String) (hist : List Exchange) :
    TurnResult :=
  if capabilityGate msg then
    { outcome := .ok ⟨handleCapabilityQuery msg, "success"⟩
      history := hist
      llmContacted := false }
  else
    let enhanced := enhancePrompt msg timeContext
    let _messages := buildConversationContext enhanced hist
    match llm with
    | .success raw =>
      let enhancedResponse := filterResponse raw r errIdx
      { outcome := .ok ⟨enhancedResponse, "success"⟩
        history := updateConversationHistory hist msg enhancedResponse ts
        llmContacted := true }
    | .timeout =>
      { outcome := .error ⟨408, errorMessages.get (errIdx.cast rfl) ++ timeoutSuffix⟩
        history := hist
        llmContacted := true }
    | .connectError =>
      { outcome := .error ⟨503, errorMessages.get (errIdx.cast rfl) ++ connectSuffix⟩
        history := hist
        llmContacted := true }
    | .otherExc d =>
      { outcome := .error ⟨500, errorMessages.get (errIdx.cast rfl)
          ++ " (Technical details: " ++ d ++ ")"⟩
        history := hist
        llmContacted := true }

/-! ## LLM Gateway streaming (llm_service.py `_handle_streaming_response`) -/

/-- One streamed line: either a line whose JSON decoding raises
`json.JSONDecodeError` (skipped by the `continue`), or a decoded object with
its optional `message.content` field and its `done` flag
(`chunk.get("done", False)`). -/
inductive StreamChunk
  | malformed
  | valid (content : Option String) (doneFlag : Bool)
deriving DecidableEq, Repr

/-- The loop of `_handle_streaming_response`, carrying `full_response`. -/
def handleStreamingAux (acc : String) : List StreamChunk → String
  | [] => pyStrip acc
  | .malformed :: rest => handleStreamingAux acc rest
  | .valid c dn :: rest =>
    let acc2 := match c with
      | some s => acc ++ s
      | none => acc
    if dn then pyStrip acc2 else handleStreamingAux acc2 rest

/-- llm_service.py `_handle_streaming_response`. -/
def handleStreamingResponse (chunks : List StreamChunk) : String :=
  handleStreamingAux "" chunks

/-! ## Speech Pipeline (speech_service.py) -/

/-- The observable behaviour of one TTS engine invocation, as the code
distinguishes it: the engine exits 0 and leaves the written bytes in the
staging file, exits non-zero, exits 0 without the staging file existing, or
the subprocess call itself raises. -/
inductive EngineRun
  | ok (bytes : List Nat)
  | exitFail
  | noOutput
  | exc
deriving DecidableEq, Repr

/-- What `synthesize_speech` (and its helpers) return: the empty buffer
`b""`, the bytes read back from the engine staging file, or the output of
`_generate_silence(durationTenths / 10)` seconds of silence. -/
inductive AudioOut
  | emptyBuf
  | engineBytes (b : List Nat)
  | silence (durationTenths : Nat)
deriving DecidableEq, Repr

/-- Byte length of the WAV buffer each `AudioOut` denotes:
`_generate_silence` writes a 44-byte PCM WAV header plus two bytes per
sample at 16 kHz (1600 samples per tenth of a second). -/
def audioByteLength : AudioOut → Nat
  | .emptyBuf => 0
  | .engineBytes b => b.length
  | .silence d => 44 + 2 * (1600 * d)

/-- speech_service.py `_kokoro_synthesize` (lines 128-175), as a function of
the engine-run outcome.  The second component records whether the staging
temporary file (created with `delete=False`) still exists on disk when the
call returns: it is unlinked only on the read-back path. -/
def kokoroSynthesize (text voice : String) (run : EngineRun) : AudioOut × Bool :=
  match run with
  | .ok b => (.engineBytes b, false)
  | .exitFail => (.silence 10, true)
  | .noOutput => (.silence 10, false)
  | .exc => (.silence 10, true)

/-- speech_service.py `_fallback_tts` (lines 177-211): espeak, with silence of
`len(text) * 0.1` seconds on any failure.  Second component as above. -/
def fallbackTts (text : String) (run : EngineRun) : AudioOut × Bool :=
  match run with
  | .ok b => (.engineBytes b, false)
  | .exitFail => (.silence text.length, true)
  | .noOutput => (.silence text.length, false)
  | .exc => (.silence text.length, true)

/-- speech_service.py `synthesize_speech` (lines 111-126).  Result components:
the audio, whether any engine was invoked, and whether a staging temporary
file is left behind. -/
def synthesizeSpeech (text voice : String) (kokoroAvailable : Bool)
    (run : EngineRun) : AudioOut × Bool × Bool :=
  if (pyStrip text).data.isEmpty then (.emptyBuf, false, false)
  else if kokoroAvailable then
    let (a, rem) := kokoroSynthesize text voice run
    (a, true, rem)
  else
    let (a, rem) := fallbackTts text run
    (a, true, rem)

/-- The observable behaviour of the Whisper transcription call inside
`transcribe_audio`. -/
inductive ASRRun
  | ok (text : String)
  | err (msg : String)
deriving DecidableEq, Repr

/-- speech_service.py `transcribe_audio` (lines 83-109): the staging file is
written, transcription runs, and the `finally` block unlinks the file on
both the success and the exception path (the exception is re-raised).
Second component: whether the staging file still exists at the end. -/
def transcribeAudio (run : ASRRun) : Except String String × Bool :=
  match run with
  | .ok t => (.ok (pyStrip t), false)
  | .err m => (.error m, false)

/-- Per-run staging-file leak behaviour shared by `_kokoro_synthesize` and
`_fallback_tts`: the file survives the call exactly on the non-zero-exit and
exception paths. -/
def leavesStagingFile : EngineRun → Bool
  | .ok _ => false
  | .exitFail => true
  | .noOutput => false
  | .exc => true

/-! ## Mode switching (speech_service.py `detect_mode_switch`, lines 228-246) -/

def chatPhrases : List String :=
  ["switch to chat", "go to chat", "chat mode", "text mode",
   "switch to text", "stop voice", "disable voice"]

def voicePhrases : List String :=
  ["switch to voice", "voice mode", "speech mode", "talk mode",
   "enable voice", "start voice"]

/-- speech_service.py `detect_mode_switch`: lower, strip, then substring-match
the chat phrase set first, the voice phrase set second. -/
def detectModeSwitch (text : String) : Option String :=
  let t := pyStrip (pyLower text)
  if chatPhrases.any (fun p => inStr p t) then some "chat"
  else if voicePhrases.any (fun p => inStr p t) then some "voice"
  else none

/-! ## Streaming specification helpers (the claim-side reading of
`_handle_streaming_response`, for comparison with the embedded loop) -/

/-- The `message.content` contribution of a chunk ("" for malformed chunks
and chunks without a content field). -/
def chunkText : StreamChunk → String
  | .malformed => ""
  | .valid c _ => c.getD ""

def isDoneChunk : StreamChunk → Bool
  | .malformed => false
  | .valid _ dn => dn

/-- The prefix of the stream up to and including the first chunk whose `done`
flag is set. -/
def upToFirstDone : List StreamChunk → List StreamChunk
  | [] => []
  | c :: cs => if isDoneChunk c then [c] else c :: upToFirstDone cs

/-- Concatenation of the content contributions of a chunk list. -/
def concatTexts (l : List StreamChunk) : String :=
  l.foldr (fun c s => chunkText c ++ s) ""

/-! ## Helper lemmas -/

theorem string_append_ne_empty_of_right (a b : String) (h : b.data ≠ []) :
    a ++ b ≠ "" := by
  intro hc
  have := congrArg String.data hc
  rw [String.data_append] at this
  simp only [List.append_eq_nil] at this
  exact h this.2

theorem getLast?_cons_of_ne (x : Char) (cs : List Char) (c : Char)
    (h : cs.getLast? = some c) : (x :: cs).getLast? = some c := by
  cases cs with
  | nil => simp at h
  | cons b bs => rw [List.getLast?_cons_cons, h]

theorem getLast?_of_cons (x : Char) (cs : List Char) (c : Char)
    (hne : cs ≠ []) (h : (x :: cs).getLast? = some c) : cs.getLast? = some c := by
  cases cs with
  | nil => exact absurd rfl hne
  | cons b bs => rwa [List.getLast?_cons_cons] at h

theorem getLast?_append_of_ne (pre l : List Char) (c : Char)
    (h : l.getLast? = some c) : (pre ++ l).getLast? = some c := by
  rw [List.getLast?_append, h]
  rfl

/-- Sentence-ending punctuation is neither whitespace nor a lowercase letter. -/
theorem sentenceEndPunct_not_space_not_lower (c : Char)
    (h : sentenceEndPunct c = true) : pySpace c = false ∧ isLowerAlpha c = false := by
  simp only [sentenceEndPunct, Bool.or_eq_true, decide_eq_true_eq] at h
  rcases h with ((h | h) | h) | h <;> subst h <;> exact ⟨by decide, by decide⟩

theorem collapseWsL_getLast? : ∀ (l : List Char) (c : Char),
    pySpace c = false → l.getLast? = some c →
    (collapseWsL l).getLast? = some c
  | [], _, _, hl => by simp at hl
  | [a], c, h, hl => by
    simp only [List.getLast?_singleton, Option.some.injEq] at hl
    subst hl
    simp only [collapseWsL, h, Bool.false_eq_true, if_false]
    rfl
  | a :: b :: rest, c, h, hl => by
    have htail : (b :: rest).getLast? = some c := by
      rwa [List.getLast?_cons_cons] at hl
    have ih := collapseWsL_getLast? (b :: rest) c h htail
    show (collapseWsL (a :: b :: rest)).getLast? = some c
    unfold collapseWsL
    by_cases ha : pySpace a = true
    · by_cases hb : pySpace b = true
      · simp only [ha, hb, if_true]
        exact ih
      · simp only [ha, hb, Bool.false_eq_true, if_true, if_false]
        exact getLast?_cons_of_ne _ _ _ ih
    · simp only [eq_false_of_ne_true ha, Bool.false_eq_true, if_false]
      exact getLast?_cons_of_ne _ _ _ ih

theorem rmWsBeforePunctL_getLast? : ∀ (l : List Char) (c : Char),
    pySpace c = false → l.getLast? = some c →
    (rmWsBeforePunctL l).getLast? = some c
  | [], _, _, hl => by simp at hl
  | x :: cs, c, h, hl => by
    show (rmWsBeforePunctL (x :: cs)).getLast? = some c
    unfold rmWsBeforePunctL
    by_cases hx : (pySpace x && nextNonWsPunct cs) = true
    · rw [if_pos hx]
      cases cs with
      | nil =>
        simp only [List.getLast?_singleton, Option.some.injEq] at hl
        subst hl
        rw [Bool.and_eq_true] at hx
        rw [hx.1] at h
        cases h
      | cons b bs =>
        have htail : (b :: bs).getLast? = some c := by
          rwa [List.getLast?_cons_cons] at hl
        exact rmWsBeforePunctL_getLast? (b :: bs) c h htail
    · rw [if_neg hx]
      cases cs with
      | nil =>
        simp only [List.getLast?_singleton, Option.some.injEq] at hl
        subst hl
        rfl
      | cons b bs =>
        have htail : (b :: bs).getLast? = some c := by
          rwa [List.getLast?_cons_cons] at hl
        exact getLast?_cons_of_ne _ _ _
          (rmWsBeforePunctL_getLast? (b :: bs) c h htail)

theorem fixSpaceAfterAux_getLast? : ∀ (fuel : Nat) (l : List Char) (c : Char),
    sentenceEndPunct c = true → l.getLast? = some c →
    (fixSpaceAfterAux fuel l).getLast? = some c := by
  intro fuel
  induction fuel with
  | zero => intro l c _ hl; exact hl
  | succ fuel ih =>
    intro l c hc hl
    match l with
    | [] => simp at hl
    | x :: cs =>
      show (fixSpaceAfterAux (fuel + 1) (x :: cs)).getLast? = some c
      unfold fixSpaceAfterAux
      by_cases hx : punct3 x = true
      · rw [if_pos hx]
        cases hdw : cs.dropWhile pySpace with
        | nil =>
          cases cs with
          | nil =>
            simp only [List.getLast?_singleton, Option.some.injEq] at hl
            subst hl
            cases fuel <;> rfl
          | cons b bs =>
            have htail : (b :: bs).getLast? = some c := by
              rwa [List.getLast?_cons_cons] at hl
            exact getLast?_cons_of_ne _ _ _ (ih (b :: bs) c hc htail)
        | cons a rs =>
          dsimp only
          by_cases ha : isLowerAlpha a = true
          · rw [if_pos ha]
            -- cs = (takeWhile pySpace cs) ++ a :: rs
            have hsplit : cs = cs.takeWhile pySpace ++ (a :: rs) := by
              conv_lhs => rw [← List.takeWhile_append_dropWhile (p := pySpace) (l := cs)]
              rw [hdw]
            have hcs : cs.getLast? = some c := by
              apply getLast?_of_cons x cs c _ hl
              intro hnil
              rw [hnil] at hdw
              simp at hdw
            have hars : (a :: rs).getLast? = some c := by
              rw [hsplit, List.getLast?_append] at hcs
              cases hrs : (a :: rs).getLast? with
              | none => simp at hrs
              | some d =>
                rw [hrs] at hcs
                simpa using hcs
            cases rs with
            | nil =>
              simp only [List.getLast?_singleton, Option.some.injEq] at hars
              subst hars
              exact absurd ha (by simp [(sentenceEndPunct_not_space_not_lower a hc).2])
            | cons r rs' =>
              have hrs : (r :: rs').getLast? = some c := by
                rwa [List.getLast?_cons_cons] at hars
              have := ih (r :: rs') c hc hrs
              show (x :: ' ' :: a :: fixSpaceAfterAux fuel (r :: rs')).getLast? = some c
              exact getLast?_cons_of_ne _ _ _
                (getLast?_cons_of_ne _ _ _ (getLast?_cons_of_ne _ _ _ this))
          · rw [if_neg ha]
            cases cs with
            | nil => simp at hdw
            | cons b bs =>
              have htail : (b :: bs).getLast? = some c := by
                rwa [List.getLast?_cons_cons] at hl
              exact getLast?_cons_of_ne _ _ _ (ih (b :: bs) c hc htail)
      · rw [if_neg hx]
        cases cs with
        | nil =>
          simp only [List.getLast?_singleton, Option.some.injEq] at hl
          subst hl
          cases fuel <;> rfl
        | cons b bs =>
          have htail : (b :: bs).getLast? = some c := by
            rwa [List.getLast?_cons_cons] at hl
          exact getLast?_cons_of_ne _ _ _ (ih (b :: bs) c hc htail)

theorem ensureEnding_getLast? (s : String) :
    ∃ c, sentenceEndPunct c = true ∧ (ensureEnding s).data.getLast? = some c := by
  unfold ensureEnding
  cases hl : s.data.getLast? with
  | none =>
    refine ⟨'.', rfl, ?_⟩
    rw [String.data_append]
    exact List.getLast?_concat _
  | some c =>
    dsimp only
    by_cases hc : sentenceEndPunct c = true
    · refine ⟨c, hc, ?_⟩
      rw [if_pos hc]
      exact hl
    · refine ⟨'.', rfl, ?_⟩
      rw [if_neg hc, String.data_append]
      exact List.getLast?_concat _

theorem dropWhile_concat_of_not (p : Char → Bool) (c : Char) (hc : p c = false) :
    ∀ ys : List Char, ∃ ys', (ys ++ [c]).dropWhile p = ys' ++ [c] := by
  intro ys
  induction ys with
  | nil =>
    refine ⟨[], ?_⟩
    simp [List.dropWhile, hc]
  | cons y ys ih =>
    by_cases hy : p y = true
    · obtain ⟨ys', h⟩ := ih
      refine ⟨ys', ?_⟩
      simp only [List.cons_append, List.dropWhile_cons, hy, if_true]
      exact h
    · refine ⟨y :: ys, ?_⟩
      simp only [List.cons_append, List.dropWhile_cons, hy]
      simp

theorem stripL_getLast? (l : List Char) (c : Char) (hc : pySpace c = false)
    (hl : l.getLast? = some c) : (stripL l).getLast? = some c := by
  obtain ⟨ys, rfl⟩ := List.getLast?_eq_some_iff.mp hl
  unfold stripL
  obtain ⟨ys', hdw⟩ := dropWhile_concat_of_not pySpace c hc ys
  rw [hdw]
  rw [List.reverse_append, List.reverse_cons, List.reverse_nil, List.nil_append,
    List.singleton_append, List.dropWhile_cons, hc]
  simp only [Bool.false_eq_true, if_false, List.reverse_cons]
  exact List.getLast?_concat _

theorem handleStreamingAux_eq : ∀ (l : List StreamChunk) (acc : String),
    handleStreamingAux acc l = pyStrip (acc ++ concatTexts (upToFirstDone l)) := by
  intro l
  induction l with
  | nil =>
    intro acc
    simp [handleStreamingAux, upToFirstDone, concatTexts]
  | cons c cs ih =>
    intro acc
    cases c with
    | malformed =>
      simp [handleStreamingAux, upToFirstDone, concatTexts, isDoneChunk,
        chunkText, ih]
    | valid content dn =>
      cases dn with
      | true =>
        cases content with
        | some s =>
          simp [handleStreamingAux, upToFirstDone, concatTexts, isDoneChunk, chunkText]
        | none =>
          simp [handleStreamingAux, upToFirstDone, concatTexts, isDoneChunk, chunkText]
      | false =>
        cases content with
        | some s =>
          simp [handleStreamingAux, upToFirstDone, concatTexts, isDoneChunk,
            chunkText, ih, String.append_assoc]
        | none =>
          simp [handleStreamingAux, upToFirstDone, concatTexts, isDoneChunk,
            chunkText, ih]

theorem concatTexts_cons (c : StreamChunk) (l : List StreamChunk) :
    concatTexts (c :: l) = chunkText c ++ concatTexts l := rfl

theorem concatTexts_upToFirstDone_malformed : ∀ (pre post : List StreamChunk),
    concatTexts (upToFirstDone (pre ++ .malformed :: post))
      = concatTexts (upToFirstDone (pre ++ post)) := by
  intro pre post
  induction pre with
  | nil =>
    simp [upToFirstDone, concatTexts, isDoneChunk, chunkText]
  | cons c pre ih =>
    rw [List.cons_append, List.cons_append]
    cases hdn : isDoneChunk c with
    | true => simp [upToFirstDone, hdn]
    | false =>
      simp only [upToFirstDone, hdn, Bool.false_eq_true, if_false]
      rw [concatTexts_cons, concatTexts_cons, ih]

/-! ## Claim theorems -/

/-- C1: for every starting history of legal size and every sequence of
`update_conversation_history` calls, the history length never exceeds
`MAX_HISTORY` = 10 at any point of the sequence, and once more than 10
exchanges have been recorded the history is exactly the last 10 recorded
exchanges in insertion order. -/
theorem history_capacity_invariant (h0 : List Exchange) (es : List Exchange)
    (hle : h0.length ≤ MAX_HISTORY) :
    (∀ pre, pre <+: es → (recordAll h0 pre).length ≤ MAX_HISTORY) ∧
    (MAX_HISTORY < es.length →
      recordAll h0 es = es.drop (es.length - MAX_HISTORY)) := by
  constructor
  · intro pre _
    exact recordAll_length_le h0 pre hle
  · intro hN
    rw [recordAll_eq_lastH_append es h0 hle]
    unfold lastH
    have harith : (h0 ++ es).length - MAX_HISTORY
        = h0.length + (es.length - MAX_HISTORY) := by
      simp only [List.length_append]
      omega
    rw [harith, List.drop_append]

def sampleExchanges : List Exchange :=
  [⟨"u1", "a1", "t1"⟩, ⟨"u2", "a2", "t2"⟩, ⟨"u3", "a3", "t3"⟩,
   ⟨"u4", "a4", "t4"⟩, ⟨"u5", "a5", "t5"⟩, ⟨"u6", "a6", "t6"⟩,
   ⟨"u7", "a7", "t7"⟩, ⟨"u8", "a8", "t8"⟩, ⟨"u9", "a9", "t9"⟩,
   ⟨"u10", "a10", "t10"⟩, ⟨"u11", "a11", "t11"⟩]

theorem history_capacity_invariant_witness :
    (recordAll [] sampleExchanges).length ≤ MAX_HISTORY ∧
    recordAll [] sampleExchanges = sampleExchanges.drop 1 := by
  have h := history_capacity_invariant [] sampleExchanges (by decide)
  exact ⟨h.1 sampleExchanges (List.prefix_refl _), h.2 (by decide)⟩

/-- C2: for every current prompt and every reachable history state (length at
most `MAX_HISTORY`), the built context is the system-prompt message, the
stored exchanges expanded oldest-first into user/assistant message pairs, and
the current user message last. -/
theorem build_context_shape (p : String) (hist : List Exchange)
    (hle : hist.length ≤ MAX_HISTORY) :
    buildConversationContext p hist =
      ⟨"system", getSystemPrompt⟩ ::
        (hist.flatMap expandExchange ++ [⟨"user", p⟩]) ∧
    (buildConversationContext p hist).head? = some ⟨"system", getSystemPrompt⟩ ∧
    (buildConversationContext p hist).getLast? = some ⟨"user", p⟩ := by
  have hl : lastH hist = hist := by
    unfold lastH
    have h0 : hist.length - MAX_HISTORY = 0 := by omega
    rw [h0, List.drop_zero]
  refine ⟨?_, rfl, ?_⟩
  · unfold buildConversationContext
    rw [hl]
  · unfold buildConversationContext
    rw [show (⟨"system", getSystemPrompt⟩ ::
        ((lastH hist).flatMap expandExchange ++ [⟨"user", p⟩]) : List Message)
      = (⟨"system", getSystemPrompt⟩ :: (lastH hist).flatMap expandExchange)
        ++ [⟨"user", p⟩] from rfl]
    exact List.getLast?_concat _

theorem build_context_shape_witness :
    buildConversationContext "hi" [⟨"u1", "a1", "t1"⟩] =
      ⟨"system", getSystemPrompt⟩ ::
        ([⟨"u1", "a1", "t1"⟩].flatMap expandExchange ++ [⟨"user", "hi"⟩]) ∧
    (buildConversationContext "hi" [⟨"u1", "a1", "t1"⟩]).head?
      = some ⟨"system", getSystemPrompt⟩ ∧
    (buildConversationContext "hi" [⟨"u1", "a1", "t1"⟩]).getLast?
      = some ⟨"user", "hi"⟩ :=
  build_context_shape "hi" [⟨"u1", "a1", "t1"⟩] (by decide)

/-- C9: the streamed-response reader skips undecodable chunks without
aborting (removing a malformed chunk from the stream never changes the
result), and returns the concatenated message contents of the well-formed
chunks up to and including the first chunk marked done, stripped of
surrounding whitespace. -/
theorem streaming_skips_malformed_and_concatenates :
    (∀ chunks : List StreamChunk,
      handleStreamingResponse chunks = pyStrip (concatTexts (upToFirstDone chunks))) ∧
    (∀ pre post : List StreamChunk,
      handleStreamingResponse (pre ++ .malformed :: post)
        = handleStreamingResponse (pre ++ post)) := by
  have hmain : ∀ chunks : List StreamChunk,
      handleStreamingResponse chunks = pyStrip (concatTexts (upToFirstDone chunks)) := by
    intro chunks
    show handleStreamingAux "" chunks = _
    rw [handleStreamingAux_eq, String.empty_append]
  refine ⟨hmain, ?_⟩
  intro pre post
  rw [hmain, hmain, concatTexts_upToFirstDone_malformed]

/-- C3: when the Ollama call of a text turn times out (and the capability
gate did not short-circuit the turn), the caller receives a 408 error whose
detail is a persona error-pool message followed by the timeout suffix, that
detail is non-empty, the timeout suffix differs from the connection-failure
suffix, and the conversation history is left exactly as it was. -/
theorem text_turn_timeout_no_record (msg : String) (r : FlourishRolls)
    (errIdx : Fin 5) (timeContext ts : String) (hist : List Exchange)
    (hgate : capabilityGate msg = false) :
    (∃ m ∈ errorMessages,
      (chatWithOllama msg .timeout r errIdx timeContext ts hist).outcome
        = .error ⟨408, m ++ timeoutSuffix⟩ ∧ m ++ timeoutSuffix ≠ "") ∧
    timeoutSuffix ≠ connectSuffix ∧
    (chatWithOllama msg .timeout r errIdx timeContext ts hist).history = hist := by
  have hres : chatWithOllama msg .timeout r errIdx timeContext ts hist =
      { outcome := .error ⟨408, errorMessages.get (errIdx.cast rfl) ++ timeoutSuffix⟩
        history := hist
        llmContacted := true } := by
    unfold chatWithOllama
    rw [hgate]
    rfl
  refine ⟨⟨errorMessages.get (errIdx.cast rfl), ?_, ?_, ?_⟩, by decide, ?_⟩
  · exact List.get_mem _ _ _
  · rw [hres]
  · exact string_append_ne_empty_of_right _ _ (by decide)
  · rw [hres]

theorem text_turn_timeout_no_record_witness :
    (∃ m ∈ errorMessages,
      (chatWithOllama "weather" .timeout ⟨false, false, 0, false, 0⟩ 0 "tc" "ts" []).outcome
        = .error ⟨408, m ++ timeoutSuffix⟩ ∧ m ++ timeoutSuffix ≠ "") ∧
    timeoutSuffix ≠ connectSuffix ∧
    (chatWithOllama "weather" .timeout ⟨false, false, 0, false, 0⟩ 0 "tc" "ts" []).history
      = [] :=
  text_turn_timeout_no_record "weather" ⟨false, false, 0, false, 0⟩ 0 "tc" "ts" []
    (by decide)

/-- C10: when the message contains a capability keyword (case-insensitively)
and the scripted reply differs from the message itself, the chat endpoint
returns that scripted reply with status success, does not contact the LLM,
and leaves the conversation history unchanged. -/
theorem capability_gate_scripted_response (msg : String) (llm : LLMOutcome)
    (r : FlourishRolls) (errIdx : Fin 5) (timeContext ts : String)
    (hist : List Exchange)
    (hkw : capabilityKeywords.any (fun k => inStr k (pyLower msg)) = true)
    (hne : handleCapabilityQuery msg ≠ msg) :
    chatWithOllama msg llm r errIdx timeContext ts hist =
      { outcome := .ok ⟨handleCapabilityQuery msg, "success"⟩
        history := hist
        llmContacted := false } := by
  have hg : capabilityGate msg = true := by
    unfold capabilityGate
    rw [hkw, Bool.true_and]
    exact bne_iff_ne.mpr hne
  unfold chatWithOllama
  rw [hg]
  rfl

theorem capability_gate_scripted_response_witness :
    chatWithOllama "what are your capabilities" (.success "ok")
        ⟨false, false, 0, false, 0⟩ 0 "tc" "ts" [] =
      { outcome := .ok ⟨handleCapabilityQuery "what are your capabilities", "success"⟩
        history := []
        llmContacted := false } :=
  capability_gate_scripted_response "what are your capabilities" (.success "ok")
    ⟨false, false, 0, false, 0⟩ 0 "tc" "ts" [] (by decide) (by decide)

/-- C4: speech synthesis is total: empty or whitespace-only text yields the
empty buffer without invoking an engine; otherwise an engine stage runs and
either its bytes are returned or the call degrades to generated silence —
1.0 s of silence when the discovered engine errors mid-call, and 0.1 s per
character of the requested text when only the system fallback engine exists
and it fails; generated silence is always a non-empty byte buffer. -/
theorem synthesize_speech_total_fallbacks :
    (∀ text voice kavail run, (pyStrip text).data = [] →
      synthesizeSpeech text voice kavail run = (.emptyBuf, false, false)) ∧
    (∀ text voice b, (pyStrip text).data ≠ [] →
      synthesizeSpeech text voice true (.ok b) = (.engineBytes b, true, false) ∧
      synthesizeSpeech text voice false (.ok b) = (.engineBytes b, true, false)) ∧
    (∀ text voice run, (pyStrip text).data ≠ [] →
      (run = .exitFail ∨ run = .noOutput ∨ run = .exc) →
      (synthesizeSpeech text voice true run).1 = .silence 10 ∧
      (synthesizeSpeech text voice false run).1 = .silence text.length) ∧
    (∀ d : Nat, 0 < audioByteLength (.silence d)) := by
  refine ⟨?_, ?_, ?_, ?_⟩
  · intro text voice kavail run h
    unfold synthesizeSpeech
    rw [show (pyStrip text).data.isEmpty = true from by simp [h]]
    rfl
  · intro text voice b h
    constructor <;>
      · unfold synthesizeSpeech
        rw [show (pyStrip text).data.isEmpty = false from by simp [h]]
        rfl
  · intro text voice run h hrun
    have hne : (pyStrip text).data.isEmpty = false := by simp [h]
    rcases hrun with rfl | rfl | rfl <;>
      exact ⟨by unfold synthesizeSpeech; rw [hne]; rfl,
             by unfold synthesizeSpeech; rw [hne]; rfl⟩
  · intro d
    show 0 < 44 + 2 * (1600 * d)
    omega

theorem synthesize_speech_total_fallbacks_witness :
    synthesizeSpeech "" "v" true .exc = (.emptyBuf, false, false) ∧
    synthesizeSpeech "hi" "v" true (.ok [1, 2]) = (.engineBytes [1, 2], true, false) ∧
    (synthesizeSpeech "hi" "v" true .exitFail).1 = .silence 10 ∧
    (synthesizeSpeech "hi" "v" false .exitFail).1 = .silence 2 :=
  ⟨synthesize_speech_total_fallbacks.1 "" "v" true .exc (by decide),
   (synthesize_speech_total_fallbacks.2.1 "hi" "v" [1, 2] (by decide)).1,
   (synthesize_speech_total_fallbacks.2.2.1 "hi" "v" .exitFail (by decide)
      (Or.inl rfl)).1,
   (synthesize_speech_total_fallbacks.2.2.1 "hi" "v" .exitFail (by decide)
      (Or.inl rfl)).2⟩

/-- C5 counterexample: on the non-zero-exit path of `_kokoro_synthesize` the
staging temporary file (created with `delete=False`) is not deleted — it
still exists when the call returns, refuting the claim that every
speech-pipeline temporary file is deleted on every exit path. -/
theorem temp_file_cleanup_counterexample :
    ¬ (kokoroSynthesize "hi" "default" .exitFail).2 = false := by decide

/-- C5 (amended): the ASR staging file of `transcribe_audio` is deleted on
every exit path (it is unlinked in a `finally` block); the TTS staging files
of `_kokoro_synthesize` and `_fallback_tts` are deleted only when the engine
exits 0 and the output file is read back — on a non-zero exit or an
exception the staging file is left behind (on the zero-exit/missing-file
path no file remains because the engine itself removed it). -/
theorem temp_file_lifecycle_actual :
    (∀ run, (transcribeAudio run).2 = false) ∧
    (∀ text voice run, (kokoroSynthesize text voice run).2 = leavesStagingFile run) ∧
    (∀ text run, (fallbackTts text run).2 = leavesStagingFile run) := by
  refine ⟨fun run => ?_, fun text voice run => ?_, fun text run => ?_⟩ <;>
    cases run <;> rfl

/-- C6 counterexample: with the enhancement gate and the start roll both
firing on the non-greeting text "OK then", the code produces
"Indeed, ok then" — the whole text is lower-cased — not the claimed
"Indeed, oK then" in which only the first letter would have been
lower-cased. -/
theorem flourish_lowercase_counterexample :
    startsWithGreeting "OK then" = false ∧
    addPersonalityFlourishes "OK then" ⟨true, true, 1, false, 0⟩ = "Indeed, ok then" ∧
    addPersonalityFlourishes "OK then" ⟨true, true, 1, false, 0⟩
      ≠ upperFirst ("Indeed, " ++ "oK then") := by
  refine ⟨by decide, by decide, by decide⟩

/-- C6 (amended): when the outer enhancement gate fires, the start roll
succeeds, the text does not begin with a greeting word, and the end-flourish
condition does not fire, the result is the chosen start flourish followed by
the original text lower-cased **in its entirety**, with the first character
of the combined string re-capitalized. -/
theorem flourish_start_whole_lowercase (response : String) (r : FlourishRolls)
    (henh : r.enh = true) (hstart : r.startRoll = true)
    (hgreet : startsWithGreeting response = false)
    (hend : ¬ (r.endRoll = true ∧ response.endsWith "?" = false ∧
      50 < response.length)) :
    addPersonalityFlourishes response r
      = upperFirst (startFlourishes.get (r.startIdx.cast rfl) ++ pyLower response) := by
  unfold addPersonalityFlourishes
  rw [if_neg (by simp [henh])]
  rw [if_neg hend, if_pos ⟨hstart, hgreet⟩]

theorem flourish_start_whole_lowercase_witness :
    addPersonalityFlourishes "OK now" ⟨true, true, 0, false, 0⟩
      = upperFirst (startFlourishes.get (((0 : Fin 5)).cast rfl) ++ pyLower "OK now") :=
  flourish_start_whole_lowercase "OK now" ⟨true, true, 0, false, 0⟩ rfl rfl
    (by decide) (by decide)

/-- C7: `detect_mode_switch` is a case-insensitive substring match — it
answers chat exactly when a chat phrase occurs in the lowered, stripped
text, voice exactly when no chat phrase but some voice phrase occurs, and
none otherwise (chat set checked first); including the three concrete
examples from the specification. -/
theorem detect_mode_switch_characterization :
    (∀ text : String,
      (detectModeSwitch text = some "chat" ↔
        ∃ p ∈ chatPhrases, p.data <:+: (pyStrip (pyLower text)).data) ∧
      (detectModeSwitch text = some "voice" ↔
        ¬ (∃ p ∈ chatPhrases, p.data <:+: (pyStrip (pyLower text)).data) ∧
        ∃ p ∈ voicePhrases, p.data <:+: (pyStrip (pyLower text)).data) ∧
      (detectModeSwitch text = none ↔
        ¬ (∃ p ∈ chatPhrases, p.data <:+: (pyStrip (pyLower text)).data) ∧
        ¬ (∃ p ∈ voicePhrases, p.data <:+: (pyStrip (pyLower text)).data))) ∧
    detectModeSwitch "switch to chat" = some "chat" ∧
    detectModeSwitch "please enable voice" = some "voice" ∧
    detectModeSwitch "hello there" = none := by
  refine ⟨?_, by decide, by decide, by decide⟩
  intro text
  have hiff : ∀ ps : List String,
      (ps.any (fun p => inStr p (pyStrip (pyLower text))) = true)
        ↔ ∃ p ∈ ps, p.data <:+: (pyStrip (pyLower text)).data := by
    intro ps
    rw [List.any_eq_true]
    constructor
    · rintro ⟨p, hp, hin⟩
      exact ⟨p, hp, containsSub_iff_infix.mp hin⟩
    · rintro ⟨p, hp, hin⟩
      exact ⟨p, hp, containsSub_iff_infix.mpr hin⟩
  by_cases hc : chatPhrases.any (fun p => inStr p (pyStrip (pyLower text))) = true
  · have hdet : detectModeSwitch text = some "chat" := by
      simp only [detectModeSwitch]
      rw [if_pos hc]
    have hce := (hiff chatPhrases).mp hc
    rw [hdet]
    exact ⟨iff_of_true rfl hce,
           iff_of_false (by decide) (fun h => h.1 hce),
           iff_of_false (by decide) (fun h => h.1 hce)⟩
  · have hcne : ¬ ∃ p ∈ chatPhrases, p.data <:+: (pyStrip (pyLower text)).data :=
      fun he => hc ((hiff chatPhrases).mpr he)
    by_cases hv : voicePhrases.any (fun p => inStr p (pyStrip (pyLower text))) = true
    · have hdet : detectModeSwitch text = some "voice" := by
        simp only [detectModeSwitch]
        rw [if_neg hc, if_pos hv]
      have hve := (hiff voicePhrases).mp hv
      rw [hdet]
      exact ⟨iff_of_false (by decide) hcne,
             iff_of_true rfl ⟨hcne, hve⟩,
             iff_of_false (by decide) (fun h => h.2 hve)⟩
    · have hdet : detectModeSwitch text = none := by
        simp only [detectModeSwitch]
        rw [if_neg hc, if_neg hv]
      have hvne : ¬ ∃ p ∈ voicePhrases, p.data <:+: (pyStrip (pyLower text)).data :=
        fun he => hv ((hiff voicePhrases).mpr he)
      rw [hdet]
      exact ⟨iff_of_false (by decide) hcne,
             iff_of_false (by decide) (fun h => hvne h.2),
             iff_of_true rfl ⟨hcne, hvne⟩⟩

/-- C8: for non-empty input, `clean_formatting` is exactly the pipeline
capitalize-first, append a period unless the text already ends in sentence
punctuation, collapse whitespace runs, delete whitespace before `.!?`,
normalize the space after `.!?` before a lowercase letter, then strip; in
consequence the result always ends in one of `. ! ? :`; and the concrete
examples show each clause (capitalization and period appending, whitespace
collapsing, whitespace removal before punctuation, space insertion after
punctuation). -/
theorem clean_formatting_spec :
    (∀ t : String, t ≠ "" →
      cleanFormatting t =
        pyStrip (String.mk (fixSpaceAfterPunctL (rmWsBeforePunctL (collapseWsL
          (ensureEnding (capFirst t)).data))))) ∧
    (∀ t : String, t ≠ "" → ∃ c, sentenceEndPunct c = true ∧
      (cleanFormatting t).data.getLast? = some c) ∧
    cleanFormatting "hello world" = "Hello world." ∧
    cleanFormatting "hello   world" = "Hello world." ∧
    cleanFormatting "hello !" = "Hello!" ∧
    cleanFormatting "hello.world" = "Hello. world." := by
  have hne : ∀ t : String, t ≠ "" → t.data.isEmpty = false := by
    intro t ht
    rw [List.isEmpty_eq_false]
    intro hd
    exact ht (String.ext hd)
  refine ⟨?_, ?_, by decide, by decide, by decide, by decide⟩
  · intro t ht
    unfold cleanFormatting
    rw [hne t ht]
    rfl
  · intro t ht
    obtain ⟨c, hc, hlast⟩ := ensureEnding_getLast? (capFirst t)
    refine ⟨c, hc, ?_⟩
    have hsp := (sentenceEndPunct_not_space_not_lower c hc).1
    have h2 := collapseWsL_getLast? _ c hsp hlast
    have h3 := rmWsBeforePunctL_getLast? _ c hsp h2
    have h4 := fixSpaceAfterAux_getLast?
      (rmWsBeforePunctL (collapseWsL (ensureEnding (capFirst t)).data)).length _ c hc h3
    have h5 := stripL_getLast? _ c hsp h4
    unfold cleanFormatting
    rw [hne t ht]
    exact h5

theorem clean_formatting_spec_witness :
    cleanFormatting "hello world" =
      pyStrip (String.mk (fixSpaceAfterPunctL (rmWsBeforePunctL (collapseWsL
        (ensureEnding (capFirst "hello world")).data)))) ∧
    ∃ c, sentenceEndPunct c = true ∧
      (cleanFormatting "hello world").data.getLast? = some c :=
  ⟨clean_formatting_spec.1 "hello world" (by decide),
   clean_formatting_spec.2.1 "hello world" (by decide)⟩

end Aria
